import Mathlib

/-!
Shallow embedding of the OSC codec in `src/osc.rs` (rust-osc).

Byte sources and sinks are modelled as `List Nat` of byte values; the
reader functions consume a prefix of the source and return the remaining
bytes.  `IoResult` mirrors Rust's `IoResult`: the codec itself only ever
produces the `standard_error(InvalidInput)` error (modelled `invalidInput`),
while exhaustion of the source is modelled `endOfFile`.  `OscMessage::from_reader`
can also `fail!` (task abort) on its argument-decoding loop and on an empty
typetag string; that outcome is modelled by the `panic` constructor of
`FRResult`.  `f32` values are carried as their 32-bit IEEE-754 bit pattern
(a `Nat`), because the codec only transports the bits (`write_be_f32` /
`read_be_f32` are bit-level and perform no float arithmetic).
-/

namespace Osc

abbrev Src := List Nat

inductive IoErr where
  | endOfFile
  | invalidInput
deriving DecidableEq

inductive IoResult (α : Type) where
  | ok : α → IoResult α
  | err : IoErr → IoResult α
deriving DecidableEq

/-- `enum OscType` from src/osc.rs lines 18-23.  Strings are carried as
their UTF-8 byte sequences, ints as mathematical integers constrained to
the i32 range where relevant, floats as 32-bit patterns. -/
inductive OscType where
  | OscString : List Nat → OscType
  | OscInt : Int → OscType
  | OscFloat : Nat → OscType
  | OscBlob : List Nat → OscType
deriving DecidableEq

/-- `struct OscMessage` from src/osc.rs lines 220-224. -/
structure OscMessage where
  address : List Nat
  arguments : List OscType
deriving DecidableEq

/-- A UTF-8 continuation byte (0x80-0xBF). -/
def utf8Cont (b : Nat) : Bool := 128 ≤ b && b < 192

/-- Lower bound on the first continuation byte of a multi-byte sequence
(tightened for 0xE0 and 0xF0 to exclude overlong encodings). -/
def utf8B1lo (b0 : Nat) : Nat := if b0 = 224 then 160 else if b0 = 240 then 144 else 128

/-- Upper bound on the first continuation byte (tightened for 0xED to
exclude surrogates and for 0xF4 to cap at U+10FFFF). -/
def utf8B1hi (b0 : Nat) : Nat := if b0 = 237 then 160 else if b0 = 244 then 144 else 192

/-- One step of the UTF-8 acceptor: `exp` continuation bytes are still
expected, the next of which must lie in `[lo, hi)`. -/
def utf8Scan (exp lo hi : Nat) : List Nat → Bool
  | [] => exp = 0
  | b :: rest =>
    if exp = 0 then
      if b < 128 then utf8Scan 0 0 0 rest
      else if b < 194 then false
      else if b < 224 then utf8Scan 1 (utf8B1lo b) (utf8B1hi b) rest
      else if b < 240 then utf8Scan 2 (utf8B1lo b) (utf8B1hi b) rest
      else if b < 245 then utf8Scan 3 (utf8B1lo b) (utf8B1hi b) rest
      else false
    else
      if lo ≤ b ∧ b < hi then utf8Scan (exp - 1) 128 192 rest else false

/-- Model of the UTF-8 validity check performed by `str::from_utf8_owned`
(RFC 3629: no overlongs, no surrogates, codepoints ≤ U+10FFFF). -/
def isValidUtf8 (l : List Nat) : Bool := utf8Scan 0 0 0 l

/-- The 4 big-endian bytes of the low 32 bits of `n`. -/
def beBytes4 (n : Nat) : List Nat :=
  [n / 16777216 % 256, n / 65536 % 256, n / 256 % 256, n % 256]

/-- Rust's `n as i32` on an unsigned value: truncate to 32 bits,
reinterpret two's-complement. -/
def i32ofNat (n : Nat) : Int :=
  let m := n % 4294967296
  if m < 2147483648 then (m : Int) else (m : Int) - 4294967296

/-- The 32-bit two's-complement pattern of an i32 value. -/
def natOfI32 (v : Int) : Nat := (v % 4294967296).toNat

/-- `Writer::write_be_i32`: the 4 bytes of the value's two's-complement
pattern, big-endian. -/
def write_be_i32 (v : Int) : List Nat := beBytes4 (natOfI32 v)

/-- `Writer::write_be_f32`: the 4 bytes of the IEEE-754 bit pattern,
big-endian (the pattern is transported unchanged). -/
def write_be_f32 (p : Nat) : List Nat := beBytes4 p

/-- The padded length computation of `write_osc_string` / `read_osc_string`
(src/osc.rs lines 94-99 and 164-167): `if len & 3 != 0 { len = (len|3)+1 }`. -/
def padLen (n : Nat) : Nat := if n &&& 3 = 0 then n else (n ||| 3) + 1

/-- `OscWriter::write_osc_string` (src/osc.rs lines 93-110): the text bytes
followed by NUL bytes up to the padded length. -/
def write_osc_string (s : List Nat) : List Nat :=
  s ++ List.replicate (padLen (s.length + 1) - s.length) 0

/-- `OscWriter::write_osc_blob` (src/osc.rs lines 112-119): 4-byte
big-endian signed length (`size as i32`), then the raw bytes, unpadded. -/
def write_osc_blob (b : List Nat) : List Nat := write_be_i32 (i32ofNat b.length) ++ b

/-- `OscWriter::write_osc_int` (src/osc.rs lines 121-123). -/
def write_osc_int (v : Int) : List Nat := write_be_i32 v

/-- `OscWriter::write_osc_float` (src/osc.rs lines 125-127). -/
def write_osc_float (p : Nat) : List Nat := write_be_f32 p

/-- `OscWriter::write` (src/osc.rs lines 83-90): dispatch on the variant. -/
def OscWriter.write : OscType → List Nat
  | .OscString s => write_osc_string s
  | .OscInt v => write_osc_int v
  | .OscFloat p => write_osc_float p
  | .OscBlob b => write_osc_blob b

/-- `get_type_tag` (src/osc.rs lines 211-218): the tag byte of a value,
a pure projection of the variant ('s' = 115, 'i' = 105, 'f' = 102, 'b' = 98). -/
def get_type_tag : OscType → Nat
  | .OscString _ => 115
  | .OscInt _ => 105
  | .OscFloat _ => 102
  | .OscBlob _ => 98

/-- `OscMessage::write_to` (src/osc.rs lines 227-247): address string,
then the typetag string `,` + one tag per argument, then the arguments.
The `str::from_utf8_owned` check on the typetag bytes is kept (it never
fails, see `typetags_valid_utf8`). -/
def write_to (m : OscMessage) : IoResult (List Nat) :=
  let typetags : List Nat := 44 :: m.arguments.map get_type_tag
  if isValidUtf8 typetags then
    .ok (write_osc_string m.address ++ write_osc_string typetags ++
      (m.arguments.map OscWriter.write).flatten)
  else .err .invalidInput

/-- `Reader::read_byte` on the list model of a source. -/
def read_byte : Src → IoResult (Nat × Src)
  | [] => .err .endOfFile
  | b :: rest => .ok (b, rest)

/-- The accumulation loop of `read_osc_string` (src/osc.rs lines 152-162):
bytes before the first NUL, and the rest after the (consumed) NUL; `none`
when the source is exhausted before a NUL is found. -/
def takeUntilNul : Src → Option (List Nat × Src)
  | [] => none
  | b :: rest =>
    if b = 0 then some ([], rest)
    else
      match takeUntilNul rest with
      | some (acc, r) => some (b :: acc, r)
      | none => none

/-- The padding-discard loop of `read_osc_string` (src/osc.rs lines 169-174). -/
def skipBytes : Nat → Src → IoResult Src
  | 0, src => .ok src
  | n + 1, src =>
    match read_byte src with
    | .err e => .err e
    | .ok (_, rest) => skipBytes n rest

/-- `OscReader::read_osc_string` (src/osc.rs lines 149-180). -/
def read_osc_string (src : Src) : IoResult (OscType × Src) :=
  match takeUntilNul src with
  | none => .err .endOfFile
  | some (strBytes, rest) =>
    match skipBytes (padLen (strBytes.length + 1) - (strBytes.length + 1)) rest with
    | .err e => .err e
    | .ok rest2 =>
      if isValidUtf8 strBytes then .ok (.OscString strBytes, rest2)
      else .err .invalidInput

/-- `Reader::read_be_u32`-level access: 4 big-endian bytes as a Nat. -/
def read_be_u32 (src : Src) : IoResult (Nat × Src) :=
  match src with
  | a :: b :: c :: d :: rest => .ok (((a * 256 + b) * 256 + c) * 256 + d, rest)
  | _ => .err .endOfFile

/-- Reinterpret a 32-bit pattern as a signed i32 value. -/
def i32OfBits (n : Nat) : Int :=
  if n < 2147483648 then (n : Int) else (n : Int) - 4294967296

/-- `Reader::read_be_i32`: 4 big-endian bytes, two's-complement signed. -/
def read_be_i32 (src : Src) : IoResult (Int × Src) :=
  match read_be_u32 src with
  | .err e => .err e
  | .ok (n, rest) => .ok (i32OfBits n, rest)

/-- Rust's `v as uint` on an i32 (uint is 64-bit): sign-extend and
reinterpret as unsigned. -/
def uintOfI32 (v : Int) : Nat := (v % 18446744073709551616).toNat

/-- `Reader::read_bytes(n)`: exactly `n` bytes or an IO error. -/
def read_bytes (n : Nat) (src : Src) : IoResult (List Nat × Src) :=
  if n ≤ src.length then .ok (src.take n, src.drop n) else .err .endOfFile

/-- `OscReader::read_osc_blob` (src/osc.rs lines 183-193): a 4-byte
big-endian signed length (not validated), then `read_bytes(len as uint)`. -/
def read_osc_blob (src : Src) : IoResult (OscType × Src) :=
  match read_be_i32 src with
  | .err e => .err e
  | .ok (len, rest) =>
    match read_bytes (uintOfI32 len) rest with
    | .err e => .err e
    | .ok (bytes, rest2) => .ok (.OscBlob bytes, rest2)

/-- `OscReader::read_osc_int` (src/osc.rs lines 195-200). -/
def read_osc_int (src : Src) : IoResult (OscType × Src) :=
  match read_be_i32 src with
  | .err e => .err e
  | .ok (v, rest) => .ok (.OscInt v, rest)

/-- `OscReader::read_osc_float` (src/osc.rs lines 202-207): same bytes as
`read_osc_int`, reinterpreted as an IEEE-754 bit pattern. -/
def read_osc_float (src : Src) : IoResult (OscType × Src) :=
  match read_be_u32 src with
  | .err e => .err e
  | .ok (p, rest) => .ok (.OscFloat p, rest)

/-- `OscReader::read` (src/osc.rs lines 139-147): dispatch on the tag
byte; any other tag yields `standard_error(InvalidInput)`. -/
def OscReader.read (typetag : Nat) (src : Src) : IoResult (OscType × Src) :=
  if typetag = 115 then read_osc_string src
  else if typetag = 105 then read_osc_int src
  else if typetag = 102 then read_osc_float src
  else if typetag = 98 then read_osc_blob src
  else .err .invalidInput

/-- Outcome of `OscMessage::from_reader`: a message (with the remaining
source bytes), a returned IO error, or a task abort (`fail!`,
integer-underflow/out-of-bounds slicing). -/
inductive FRResult where
  | ok : OscMessage → Src → FRResult
  | err : IoErr → FRResult
  | panic : FRResult
deriving DecidableEq

/-- The argument-decoding loop of `from_reader` (src/osc.rs lines 270-275):
one `OscReader::read` per remaining tag byte; any decode error hits
`fail!("panicked on error")`, a task abort. -/
def readArgs (address : List Nat) (acc : List OscType) : List Nat → Src → FRResult
  | [], src => .ok ⟨address, acc⟩ src
  | t :: ts, src =>
    match OscReader.read t src with
    | .err _ => .panic
    | .ok (v, rest) => readArgs address (acc ++ [v]) ts rest

/-- `OscMessage::from_reader` (src/osc.rs lines 249-277).  The two
`_ => ~""` fallbacks on non-string results of `read('s')` are kept
(they are unreachable, see claim C9).  An empty typetag string panics:
`typetags.len()-1` underflows and `typetags.slice_from(1)` is out of
bounds.  A typetag string whose second byte is a UTF-8 continuation byte
also panics: `slice_from(1)` asserts that byte index 1 is a character
boundary. -/
def from_reader (src : Src) : FRResult :=
  match OscReader.read 115 src with
  | .err e => .err e
  | .ok (addrVal, rest) =>
    let address := match addrVal with | .OscString s => s | _ => []
    match OscReader.read 115 rest with
    | .err e => .err e
    | .ok (ttVal, rest2) =>
      let typetags := match ttVal with | .OscString s => s | _ => []
      match typetags with
      | [] => .panic
      | _ :: tl =>
        match tl with
        | b1 :: _ =>
          if utf8Cont b1 then .panic else readArgs address [] tl rest2
        | [] => readArgs address [] tl rest2

/-- Rust-level well-formedness of a value: strings are valid UTF-8 (a
`~str` invariant) and, for round-tripping, NUL-free; ints fit in i32
(the `i32` type); float patterns fit in 32 bits (the `f32` type); blob
lengths fit in i32. -/
def wfValue : OscType → Bool
  | .OscString s => isValidUtf8 s && !(decide (0 ∈ s))
  | .OscInt v => decide (-2147483648 ≤ v ∧ v < 2147483648)
  | .OscFloat p => decide (p < 4294967296)
  | .OscBlob b => decide (b.length < 2147483648)

/-- Well-formedness of a message: a valid UTF-8, NUL-free address and
well-formed arguments. -/
def wfMessage (m : OscMessage) : Bool :=
  isValidUtf8 m.address && !(decide (0 ∈ m.address)) && m.arguments.all wfValue

/-! Helper lemmas. -/

/-- The bit-twiddled rounding (`if len & 3 != 0 { len = (len|3)+1 }`) is
rounding up to the next multiple of 4. -/
theorem padLen_eq (n : Nat) : padLen n = 4 * ((n + 3) / 4) := by
  obtain ⟨q, r, hr, rfl⟩ : ∃ q r, r < 4 ∧ n = 4 * q + r :=
    ⟨n / 4, n % 4, Nat.mod_lt n (by omega), by omega⟩
  have hand : (4 * q + r) &&& 3 = r := by
    have h1 : 4 * q + r = 4 * q ||| r := by
      have := Nat.mul_add_lt_is_or (i := 2) (b := r) (by simpa using hr) q
      simpa [Nat.pow_succ] using this
    have h2 : (4 * q + r) &&& 3 = (4 * q + r) % 4 := by
      have := Nat.and_pow_two_sub_one_eq_mod (4 * q + r) 2
      simpa using this
    omega
  have hor : (4 * q + r) ||| 3 = 4 * q + 3 := by
    have h1 : 4 * q + r = 4 * q ||| r := by
      have := Nat.mul_add_lt_is_or (i := 2) (b := r) (by simpa using hr) q
      simpa [Nat.pow_succ] using this
    have h3 : 4 * q + 3 = 4 * q ||| 3 := by
      have := Nat.mul_add_lt_is_or (i := 2) (b := 3) (by norm_num) q
      simpa [Nat.pow_succ] using this
    have h4 : r ||| 3 = 3 := by interval_cases r <;> rfl
    rw [h1, Nat.or_assoc, h4, ← h3]
  rw [padLen, hand, hor]
  split <;> omega

theorem le_padLen (n : Nat) : n ≤ padLen n := by
  rw [padLen_eq]; omega

theorem padLen_le (n : Nat) : padLen n ≤ n + 3 := by
  rw [padLen_eq]; omega

/-- The accumulation loop finds the first NUL. -/
theorem takeUntilNul_append (s rest : Src) (h : 0 ∉ s) :
    takeUntilNul (s ++ 0 :: rest) = some (s, rest) := by
  induction s with
  | nil => simp [takeUntilNul]
  | cons b tl ih =>
    have hb : b ≠ 0 := fun hb0 => h (hb0 ▸ List.mem_cons_self b tl)
    have htl : 0 ∉ tl := fun hm => h (List.mem_cons_of_mem b hm)
    simp only [List.cons_append, takeUntilNul, if_neg hb, List.append_eq, ih htl]

/-- Exhaustion before any NUL. -/
theorem takeUntilNul_eq_none (s : Src) (h : 0 ∉ s) : takeUntilNul s = none := by
  induction s with
  | nil => rfl
  | cons b tl ih =>
    have hb : b ≠ 0 := fun hb0 => h (hb0 ▸ List.mem_cons_self b tl)
    have htl : 0 ∉ tl := fun hm => h (List.mem_cons_of_mem b hm)
    simp only [takeUntilNul, if_neg hb, ih htl]

/-- The discard loop succeeds when enough bytes remain, dropping them. -/
theorem skipBytes_ok (k : Nat) (src : Src) (h : k ≤ src.length) :
    skipBytes k src = .ok (src.drop k) := by
  induction k generalizing src with
  | zero => simp [skipBytes]
  | succ n ih =>
    match src with
    | [] => simp at h
    | b :: rest =>
      simp only [skipBytes, read_byte]
      rw [ih rest (by simpa using h)]
      simp

/-- Reading back the 4 big-endian bytes of a value below 2^32. -/
theorem read_be_u32_beBytes4 (n : Nat) (rest : Src) (h : n < 4294967296) :
    read_be_u32 (beBytes4 n ++ rest) = .ok (n, rest) := by
  simp only [beBytes4, List.cons_append, List.nil_append, read_be_u32]
  have hexp : ((n / 16777216 % 256 * 256 + n / 65536 % 256) * 256 + n / 256 % 256) * 256
      + n % 256 = n := by omega
  rw [hexp]

/-- i32 round trip through the 4-byte big-endian encoding. -/
theorem read_write_be_i32 (v : Int) (rest : Src)
    (h1 : -2147483648 ≤ v) (h2 : v < 2147483648) :
    read_be_i32 (write_be_i32 v ++ rest) = .ok (v, rest) := by
  have hmod : (0 : Int) ≤ v % 4294967296 := Int.emod_nonneg v (by norm_num)
  have hlt : v % 4294967296 < 4294967296 := Int.emod_lt_of_pos v (by norm_num)
  have hcast : ((natOfI32 v : Nat) : Int) = v % 4294967296 := by
    simp [natOfI32, Int.toNat_of_nonneg hmod]
  have hn : natOfI32 v < 4294967296 := by omega
  simp only [write_be_i32, read_be_i32, read_be_u32_beBytes4 (natOfI32 v) rest hn]
  have hv : i32OfBits (natOfI32 v) = v := by
    simp only [i32OfBits]
    split <;> omega
  rw [hv]

/-- ASCII-only byte lists are valid UTF-8. -/
theorem isValidUtf8_of_ascii (l : List Nat) (h : ∀ b ∈ l, b < 128) :
    isValidUtf8 l = true := by
  induction l with
  | nil => rfl
  | cons b tl ih =>
    have hb : b < 128 := h b (List.mem_cons_self b tl)
    show utf8Scan 0 0 0 (b :: tl) = true
    rw [utf8Scan, if_pos rfl, if_pos hb]
    exact ih fun x hx => h x (List.mem_cons_of_mem b hx)

theorem get_type_tag_lt (v : OscType) : get_type_tag v < 128 := by
  cases v <;> simp [get_type_tag]

theorem get_type_tag_ne_zero (v : OscType) : get_type_tag v ≠ 0 := by
  cases v <;> simp [get_type_tag]

/-- The typetag string built by `write_to` always passes the
`from_utf8_owned` check: it is pure ASCII. -/
theorem typetags_valid_utf8 (args : List OscType) :
    isValidUtf8 (44 :: args.map get_type_tag) = true := by
  apply isValidUtf8_of_ascii
  intro b hb
  rcases List.mem_cons.mp hb with h | h
  · omega
  · obtain ⟨v, _, rfl⟩ := List.mem_map.mp h
    exact get_type_tag_lt v

/-- String round trip: decoding an encoded NUL-free valid-UTF-8 string
consumes exactly the encoded field and yields the original bytes. -/
theorem read_write_osc_string (s rest : Src) (hnul : 0 ∉ s)
    (hval : isValidUtf8 s = true) :
    read_osc_string (write_osc_string s ++ rest) = .ok (.OscString s, rest) := by
  have hk : s.length + 1 ≤ padLen (s.length + 1) := le_padLen _
  set k := padLen (s.length + 1) - s.length with hkdef
  have hk1 : 1 ≤ k := by omega
  have hrep : List.replicate k (0 : Nat) = 0 :: List.replicate (k - 1) 0 := by
    cases hk0 : k with
    | zero => omega
    | succ j => simp [List.replicate_succ]
  have happ : write_osc_string s ++ rest = s ++ 0 :: (List.replicate (k - 1) 0 ++ rest) := by
    simp only [write_osc_string, ← hkdef, hrep, List.append_assoc, List.cons_append]
  rw [happ]
  simp only [read_osc_string, takeUntilNul_append s _ hnul]
  have hskip : padLen (s.length + 1) - (s.length + 1) = k - 1 := by omega
  rw [hskip, skipBytes_ok (k - 1) _
    (by simp only [List.length_append, List.length_replicate]; omega)]
  rw [List.drop_left' (by simp only [List.length_replicate])]
  simp [hval]

/-- Blob round trip for blobs whose length fits in i32. -/
theorem read_write_osc_blob (b rest : Src) (h : b.length < 2147483648) :
    read_osc_blob (write_osc_blob b ++ rest) = .ok (.OscBlob b, rest) := by
  have hlen : i32ofNat b.length = (b.length : Int) := by
    simp only [i32ofNat]
    rw [Nat.mod_eq_of_lt (by omega)]
    rw [if_pos (by exact_mod_cast h)]
  have hri := read_write_be_i32 (b.length : Int) (b ++ rest) (by omega) (by exact_mod_cast h)
  have huint : uintOfI32 (b.length : Int) = b.length := by
    simp only [uintOfI32]
    rw [Int.emod_eq_of_lt (by positivity)
      (by exact_mod_cast (by omega : b.length < 18446744073709551616))]
    exact Int.toNat_natCast _
  have hrb : read_bytes b.length (b ++ rest) = .ok (b, rest) := by
    have hle : b.length ≤ (b ++ rest).length := by simp
    simp only [read_bytes]
    rw [if_pos hle, List.take_left' rfl, List.drop_left' rfl]
  simp only [write_osc_blob, hlen, List.append_assoc, read_osc_blob, hri, huint, hrb]

/-- Dispatch equations for `OscReader::read`. -/
theorem read_tag_s (src : Src) : OscReader.read 115 src = read_osc_string src := by
  simp [OscReader.read]

theorem read_tag_i (src : Src) : OscReader.read 105 src = read_osc_int src := by
  simp [OscReader.read]

theorem read_tag_f (src : Src) : OscReader.read 102 src = read_osc_float src := by
  simp [OscReader.read]

theorem read_tag_b (src : Src) : OscReader.read 98 src = read_osc_blob src := by
  simp [OscReader.read]

/-- Per-value round trip: reading with the value's own tag from its own
encoding yields the value back and consumes exactly its encoding. -/
theorem read_write_value (v : OscType) (rest : Src) (h : wfValue v = true) :
    OscReader.read (get_type_tag v) (OscWriter.write v ++ rest) = .ok (v, rest) := by
  cases v with
  | OscString s =>
    simp only [wfValue, Bool.and_eq_true, Bool.not_eq_true',
      decide_eq_false_iff_not] at h
    simp only [get_type_tag, OscWriter.write, read_tag_s]
    exact read_write_osc_string s rest h.2 h.1
  | OscInt v =>
    simp only [wfValue, decide_eq_true_eq] at h
    simp only [get_type_tag, OscWriter.write, read_tag_i, write_osc_int, read_osc_int,
      read_write_be_i32 v rest h.1 h.2]
  | OscFloat p =>
    simp only [wfValue, decide_eq_true_eq] at h
    simp only [get_type_tag, OscWriter.write, read_tag_f, write_osc_float, write_be_f32,
      read_osc_float, read_be_u32_beBytes4 p rest h]
  | OscBlob b =>
    simp only [wfValue, decide_eq_true_eq] at h
    simp only [get_type_tag, OscWriter.write, read_tag_b]
    exact read_write_osc_blob b rest h

/-- The argument loop of `from_reader` inverts the argument encoding of
`write_to` when every argument is well formed. -/
theorem readArgs_write (address : List Nat) (args pre : List OscType) (more : Src)
    (h : ∀ v ∈ args, wfValue v = true) :
    readArgs address pre (args.map get_type_tag)
      ((args.map OscWriter.write).flatten ++ more) = .ok ⟨address, pre ++ args⟩ more := by
  induction args generalizing pre with
  | nil => simp [readArgs]
  | cons v vs ih =>
    have hv := read_write_value v ((vs.map OscWriter.write).flatten ++ more)
      (h v (List.mem_cons_self v vs))
    simp only [List.map_cons, List.flatten_cons, List.append_assoc, readArgs, hv]
    rw [ih (pre ++ [v]) fun x hx => h x (List.mem_cons_of_mem v hx)]
    simp

theorem utf8Cont_get_type_tag (v : OscType) : utf8Cont (get_type_tag v) = false := by
  cases v <;> rfl

/-- What `write_to` produces, in closed form: the typetag check always
passes because the typetag string is pure ASCII. -/
theorem write_to_eq (m : OscMessage) :
    write_to m = .ok (write_osc_string m.address ++
      write_osc_string (44 :: m.arguments.map get_type_tag) ++
      (m.arguments.map OscWriter.write).flatten) := by
  simp only [write_to]
  rw [if_pos (typetags_valid_utf8 m.arguments)]

/-- Decoding the exact output of `write_to` recovers the message when the
address is NUL-free valid UTF-8 and every argument is well formed. -/
theorem from_reader_write (addr : List Nat) (args : List OscType)
    (hval : isValidUtf8 addr = true) (hnul : 0 ∉ addr)
    (hargs : ∀ v ∈ args, wfValue v = true) :
    from_reader (write_osc_string addr ++
      write_osc_string (44 :: args.map get_type_tag) ++
      (args.map OscWriter.write).flatten) = .ok ⟨addr, args⟩ [] := by
  have hTval : isValidUtf8 (44 :: args.map get_type_tag) = true := typetags_valid_utf8 args
  have hTnul : (0 : Nat) ∉ 44 :: args.map get_type_tag := by
    intro hmem
    rcases List.mem_cons.mp hmem with h0 | h0
    · simp at h0
    · obtain ⟨v, _, hv⟩ := List.mem_map.mp h0
      exact get_type_tag_ne_zero v hv
  rw [List.append_assoc]
  have h1 := read_write_osc_string addr
    (write_osc_string (44 :: args.map get_type_tag) ++ (args.map OscWriter.write).flatten)
    hnul hval
  have h2 := read_write_osc_string (44 :: args.map get_type_tag)
    ((args.map OscWriter.write).flatten) hTnul hTval
  simp only [from_reader, read_tag_s, h1, h2]
  cases args with
  | nil =>
    simp only [List.map_nil, List.flatten_nil, readArgs]
  | cons v vs =>
    simp only [List.map_cons, utf8Cont_get_type_tag v, Bool.false_eq_true, if_false]
    have hF := readArgs_write addr (v :: vs) [] [] hargs
    simp only [List.map_cons, List.flatten_cons, List.append_assoc, List.append_nil,
      List.nil_append] at hF
    simpa using hF

/-! Shape inversion lemmas for the primitive readers (claim C9). -/

theorem read_osc_string_shape (src : Src) (v : OscType) (rest : Src)
    (h : read_osc_string src = .ok (v, rest)) : ∃ s, v = .OscString s := by
  simp only [read_osc_string] at h
  split at h
  · exact absurd h (by simp)
  · split at h
    · exact absurd h (by simp)
    · split at h
      · simp only [IoResult.ok.injEq, Prod.mk.injEq] at h
        exact ⟨_, h.1.symm⟩
      · exact absurd h (by simp)

theorem read_osc_int_shape (src : Src) (v : OscType) (rest : Src)
    (h : read_osc_int src = .ok (v, rest)) : ∃ n, v = .OscInt n := by
  simp only [read_osc_int] at h
  split at h
  · exact absurd h (by simp)
  · simp only [IoResult.ok.injEq, Prod.mk.injEq] at h
    exact ⟨_, h.1.symm⟩

theorem read_osc_float_shape (src : Src) (v : OscType) (rest : Src)
    (h : read_osc_float src = .ok (v, rest)) : ∃ p, v = .OscFloat p := by
  simp only [read_osc_float] at h
  split at h
  · exact absurd h (by simp)
  · simp only [IoResult.ok.injEq, Prod.mk.injEq] at h
    exact ⟨_, h.1.symm⟩

theorem read_osc_blob_shape (src : Src) (v : OscType) (rest : Src)
    (h : read_osc_blob src = .ok (v, rest)) : ∃ b, v = .OscBlob b := by
  simp only [read_osc_blob] at h
  split at h
  · exact absurd h (by simp)
  · split at h
    · exact absurd h (by simp)
    · simp only [IoResult.ok.injEq, Prod.mk.injEq] at h
      exact ⟨_, h.1.symm⟩

/-! The claims. -/

/-- Claim C1, counterexample: the claim quantifies over every message with
a valid-UTF-8 address, but an address with an embedded NUL byte (here
`"a\x00"`, bytes `[97, 0]`, valid UTF-8) does not round-trip: the decoder
stops at the first NUL and returns address `[97]`. -/
theorem string_nul_breaks_roundtrip :
    isValidUtf8 [97, 0] = true
    ∧ write_to ⟨[97, 0], []⟩ = .ok [97, 0, 0, 0, 44, 0, 0, 0]
    ∧ from_reader [97, 0, 0, 0, 44, 0, 0, 0] = .ok ⟨[97], []⟩ []
    ∧ decide ((⟨[97], []⟩ : OscMessage) = ⟨[97, 0], []⟩) = false := by
  decide

/-- Claim C1 (amended): for every message whose address and string
arguments are valid UTF-8 and NUL-free, whose ints are in i32 range, whose
float patterns fit 32 bits and whose blobs are shorter than 2^31 bytes,
decoding the bytes produced by encoding yields the original message (same
address, same arguments in the same order) with nothing left over. -/
theorem decode_encode_roundtrip (m : OscMessage) (h : wfMessage m = true) :
    ∃ out, write_to m = .ok out ∧ from_reader out = .ok m [] := by
  have hm : (isValidUtf8 m.address = true ∧ 0 ∉ m.address) ∧
      ∀ v ∈ m.arguments, wfValue v = true := by
    simp only [wfMessage, Bool.and_eq_true, Bool.not_eq_true', decide_eq_false_iff_not,
      List.all_eq_true] at h
    exact ⟨⟨h.1.1, h.1.2⟩, h.2⟩
  exact ⟨_, write_to_eq m, from_reader_write m.address m.arguments hm.1.1 hm.1.2 hm.2⟩

/-- Witness for C1 at the test corpus message `/test/do "Hello" "world"`. -/
theorem decode_encode_roundtrip_witness :
    wfMessage ⟨[47, 116, 101, 115, 116, 47, 100, 111],
      [.OscString [72, 101, 108, 108, 111], .OscString [119, 111, 114, 108, 100]]⟩ = true
    ∧ ∃ out, write_to ⟨[47, 116, 101, 115, 116, 47, 100, 111],
        [.OscString [72, 101, 108, 108, 111], .OscString [119, 111, 114, 108, 100]]⟩ = .ok out
      ∧ from_reader out = .ok ⟨[47, 116, 101, 115, 116, 47, 100, 111],
          [.OscString [72, 101, 108, 108, 111], .OscString [119, 111, 114, 108, 100]]⟩ [] :=
  ⟨by decide, decode_encode_roundtrip _ (by decide)⟩

/-- Claim C2: on input address `"/"` and typetag string `",x"` (tag `x`
outside `{s,i,f,b}`), `OscReader::read` itself returns the recoverable
`InvalidInput` IO error, but `from_reader` maps every argument-decode
error to `fail!` — a task abort, not a returned `UnknownTypeTag` value
(no such error value exists in the code). -/
theorem unknown_tag_aborts :
    OscReader.read 120 [] = .err .invalidInput
    ∧ from_reader [47, 0, 0, 0, 44, 120, 0, 0] = .panic := by
  decide

/-- Claim C3: on input address `"/"` and typetag field `"x\x00\x00\x00"`
(decoding to `"x"`, which does not begin with `,`), `from_reader` performs
no validation and returns a message with zero arguments instead of a
`MalformedTypeTags` error (no such error value exists in the code: the
first typetag byte is skipped unconditionally). -/
theorem malformed_typetags_accepted :
    from_reader [47, 0, 0, 0, 120, 0, 0, 0] = .ok ⟨[47], []⟩ [] := by
  decide

/-- Claim C4: for every text of length L, `write_osc_string` writes
exactly `4*ceil((L+1)/4)` bytes — the text followed by at least one NUL —
and the last byte written is 0. -/
theorem string_padding_law (s : List Nat) :
    (write_osc_string s).length = 4 * ((s.length + 1 + 3) / 4)
    ∧ write_osc_string s = s ++ List.replicate ((write_osc_string s).length - s.length) 0
    ∧ s.length < (write_osc_string s).length
    ∧ (write_osc_string s).getLast? = some 0 := by
  have hp := padLen_eq (s.length + 1)
  have hle := le_padLen (s.length + 1)
  have hlen : (write_osc_string s).length = padLen (s.length + 1) := by
    simp only [write_osc_string, List.length_append, List.length_replicate]
    omega
  refine ⟨by omega, ?_, by omega, ?_⟩
  · rw [hlen]; rfl
  · obtain ⟨j, hj⟩ : ∃ j, padLen (s.length + 1) - s.length = j + 1 :=
      ⟨padLen (s.length + 1) - s.length - 1, by omega⟩
    simp only [write_osc_string, hj, List.replicate_succ']
    rw [← List.append_assoc, List.getLast?_concat]

/-- A blob whose length needs the i32 sign bit does not round-trip: the
length prefix reads back negative, the `as uint` cast makes `read_bytes`
request nearly 2^64 bytes, and that request fails. -/
theorem read_write_blob_overflow (b : List Nat) (h1 : 2147483648 ≤ b.length)
    (h2 : b.length < 4294967296) :
    read_osc_blob (write_osc_blob b) = .err .endOfFile := by
  have hlen : i32ofNat b.length = (b.length : Int) - 4294967296 := by
    simp only [i32ofNat]
    rw [Nat.mod_eq_of_lt h2, if_neg (by omega)]
  have hpat : natOfI32 ((b.length : Int) - 4294967296) = b.length := by
    simp only [natOfI32]
    omega
  have hw : write_osc_blob b = beBytes4 b.length ++ b := by
    rw [write_osc_blob, hlen, write_be_i32, hpat]
  rw [hw]
  have hr := read_be_u32_beBytes4 b.length b (by omega)
  have hbits : i32OfBits b.length = (b.length : Int) - 4294967296 := by
    simp only [i32OfBits]
    rw [if_neg (by omega)]
  have hu : uintOfI32 ((b.length : Int) - 4294967296) =
      18446744073709551616 - 4294967296 + b.length := by
    simp only [uintOfI32]
    omega
  have hrb : read_bytes (18446744073709551616 - 4294967296 + b.length) b =
      .err .endOfFile := by
    simp only [read_bytes]
    rw [if_neg (by omega)]
  simp only [read_osc_blob, read_be_i32, hr, hbits, hu, hrb]

/-- Claim C5, counterexample: the claim quantifies over every byte
sequence, but a blob of 2^31 zero bytes does not round-trip: its length
prefix, written as `size as i32`, reads back as the negative value -2^31
and decoding fails instead of returning the blob. -/
theorem blob_roundtrip_fails_at_i32_max :
    read_osc_blob (write_osc_blob (List.replicate 2147483648 0)) = .err .endOfFile :=
  read_write_blob_overflow (List.replicate 2147483648 0)
    (by rw [List.length_replicate])
    (by rw [List.length_replicate]; norm_num)

/-- Claim C5 (amended): `write_osc_blob` writes exactly `4 + len(b)`
bytes for every byte sequence b — a 4-byte big-endian signed length
prefix, then the raw bytes, with no padding; and for every b shorter
than 2^31 bytes, `read_osc_blob` applied to exactly that output returns
b unchanged, consuming everything. -/
theorem blob_law (b : List Nat) :
    (write_osc_blob b).length = 4 + b.length
    ∧ (b.length < 2147483648 →
        read_osc_blob (write_osc_blob b) = .ok (.OscBlob b, [])) := by
  constructor
  · simp only [write_osc_blob, List.length_append, write_be_i32, beBytes4,
      List.length_cons, List.length_nil]
  · intro h
    have := read_write_osc_blob b [] h
    simpa using this

/-- Witness for C5 at the test corpus blob `[1,2,3,4,5]`. -/
theorem blob_law_witness :
    (write_osc_blob [1, 2, 3, 4, 5]).length = 4 + [1, 2, 3, 4, 5].length
    ∧ read_osc_blob (write_osc_blob [1, 2, 3, 4, 5]) = .ok (.OscBlob [1, 2, 3, 4, 5], []) :=
  ⟨(blob_law [1, 2, 3, 4, 5]).1, (blob_law [1, 2, 3, 4, 5]).2 (by decide)⟩

/-- Claim C6: `read_osc_string` reads bytes until the first NUL (consumed
but excluded), then discards bytes until `4*ceil((raw_len+1)/4)` bytes in
total have been consumed; the result is the accumulated bytes if they are
valid UTF-8 and the `InvalidInput` error otherwise; and a source exhausted
before any NUL yields the underlying IO error. -/
theorem read_string_spec (pre rest : List Nat) (hnul : 0 ∉ pre) :
    (4 * ((pre.length + 1 + 3) / 4) - (pre.length + 1) ≤ rest.length →
      read_osc_string (pre ++ 0 :: rest) =
        (if isValidUtf8 pre then
          .ok (.OscString pre,
            rest.drop (4 * ((pre.length + 1 + 3) / 4) - (pre.length + 1)))
        else .err .invalidInput))
    ∧ read_osc_string pre = .err .endOfFile := by
  have hp := padLen_eq (pre.length + 1)
  constructor
  · intro hrest
    simp only [read_osc_string, takeUntilNul_append pre rest hnul]
    rw [skipBytes_ok _ _ (by omega)]
    have hk : padLen (pre.length + 1) - (pre.length + 1) =
        4 * ((pre.length + 1 + 3) / 4) - (pre.length + 1) := by omega
    rw [hk]
  · simp only [read_osc_string, takeUntilNul_eq_none pre hnul]

/-- Witness for C6 at the test corpus string `"asdf"` (field
`61 73 64 66 00 00 00 00`). -/
theorem read_string_spec_witness :
    read_osc_string ([97, 115, 100, 102] ++ 0 :: [0, 0, 0]) = .ok (.OscString [97, 115, 100, 102], [])
    ∧ read_osc_string [97, 115, 100, 102] = .err .endOfFile := by
  refine ⟨?_, (read_string_spec [97, 115, 100, 102] [0, 0, 0] (by decide)).2⟩
  have h := (read_string_spec [97, 115, 100, 102] [0, 0, 0] (by decide)).1 (by decide)
  simpa using h

/-- Claim C7: the typetag string written by `write_to` is `,` followed by
exactly one tag byte per argument in argument order, obtained by the pure
projection `get_type_tag` ('s' for string, 'i' for int, 'f' for float,
'b' for blob), and is itself encoded by `write_osc_string`, hence under
the string padding rule. -/
theorem typetag_string_law (m : OscMessage) :
    write_to m = .ok (write_osc_string m.address ++
      write_osc_string (44 :: m.arguments.map get_type_tag) ++
      (m.arguments.map OscWriter.write).flatten)
    ∧ (∀ s, get_type_tag (.OscString s) = 115)
    ∧ (∀ v, get_type_tag (.OscInt v) = 105)
    ∧ (∀ p, get_type_tag (.OscFloat p) = 102)
    ∧ (∀ b, get_type_tag (.OscBlob b) = 98) :=
  ⟨write_to_eq m, fun _ => rfl, fun _ => rfl, fun _ => rfl, fun _ => rfl⟩

/-- Claim C8: when the 4 length-prefix bytes form a negative big-endian
signed 32-bit value (first byte ≥ 0x80), `read_osc_blob` does not
validate the length: the `as uint` cast turns it into at least
2^64 - 2^31, and the resulting `read_bytes` request fails with the
underlying IO error on any source shorter than that — no panic, no blob. -/
theorem negative_blob_length_errors (a b c d : Nat) (rest : Src)
    (ha : 128 ≤ a) (ha2 : a < 256) (hb : b < 256) (hc : c < 256) (hd : d < 256)
    (hrest : rest.length < 18446744071562067968) :
    i32OfBits (((a * 256 + b) * 256 + c) * 256 + d) < 0
    ∧ read_osc_blob (a :: b :: c :: d :: rest) = .err .endOfFile := by
  have hn1 : 2147483648 ≤ ((a * 256 + b) * 256 + c) * 256 + d := by omega
  have hn2 : ((a * 256 + b) * 256 + c) * 256 + d < 4294967296 := by omega
  have hneg : i32OfBits (((a * 256 + b) * 256 + c) * 256 + d) =
      ((((a * 256 + b) * 256 + c) * 256 + d : Nat) : Int) - 4294967296 := by
    simp only [i32OfBits]
    rw [if_neg (by omega)]
  have hu : 18446744071562067968 ≤ uintOfI32 (i32OfBits (((a * 256 + b) * 256 + c) * 256 + d)) := by
    rw [hneg]
    simp only [uintOfI32]
    omega
  constructor
  · rw [hneg]; omega
  · simp only [read_osc_blob, read_be_i32, read_be_u32]
    have h5 : read_bytes (uintOfI32 (i32OfBits (((a * 256 + b) * 256 + c) * 256 + d))) rest =
        .err .endOfFile := by
      simp only [read_bytes]
      rw [if_neg (by omega)]
    rw [h5]

/-- Witness for C8 at the length prefix `FF FF FF FF` (value -1). -/
theorem negative_blob_length_errors_witness :
    i32OfBits (((255 * 256 + 255) * 256 + 255) * 256 + 255) < 0
    ∧ read_osc_blob (255 :: 255 :: 255 :: 255 :: []) = .err .endOfFile :=
  negative_blob_length_errors 255 255 255 255 [] (by decide) (by decide) (by decide)
    (by decide) (by decide) (by decide)

/-- Claim C9: whenever `OscReader::read(tag)` succeeds, the returned
value's variant corresponds to the tag (`get_type_tag` of the result is
the tag); in particular a successful `read('s')` always yields an
`OscString`, so the `_ => ~""` fallbacks in `from_reader` are
unreachable. -/
theorem read_result_matches_tag (t : Nat) (src : Src) (v : OscType) (rest : Src)
    (h : OscReader.read t src = .ok (v, rest)) :
    get_type_tag v = t ∧ (t = 115 → ∃ s, v = .OscString s) := by
  by_cases h115 : t = 115
  · subst h115
    rw [read_tag_s] at h
    obtain ⟨s, rfl⟩ := read_osc_string_shape _ _ _ h
    exact ⟨rfl, fun _ => ⟨s, rfl⟩⟩
  · by_cases h105 : t = 105
    · subst h105
      rw [read_tag_i] at h
      obtain ⟨n, rfl⟩ := read_osc_int_shape _ _ _ h
      exact ⟨rfl, fun ht => absurd ht (by decide)⟩
    · by_cases h102 : t = 102
      · subst h102
        rw [read_tag_f] at h
        obtain ⟨p, rfl⟩ := read_osc_float_shape _ _ _ h
        exact ⟨rfl, fun ht => absurd ht (by decide)⟩
      · by_cases h98 : t = 98
        · subst h98
          rw [read_tag_b] at h
          obtain ⟨bb, rfl⟩ := read_osc_blob_shape _ _ _ h
          exact ⟨rfl, fun ht => absurd ht (by decide)⟩
        · simp only [OscReader.read, if_neg h115, if_neg h105, if_neg h102, if_neg h98] at h
          exact absurd h (by simp)

/-- Witness for C9: `read('s')` on the field `00 00 00 00` succeeds with
the empty `OscString`. -/
theorem read_result_matches_tag_witness :
    get_type_tag (.OscString []) = 115 ∧ (115 = 115 → ∃ s, OscType.OscString [] = .OscString s) :=
  read_result_matches_tag 115 [0, 0, 0, 0] (.OscString []) [] (by decide)

/-- Claim C10: on input address `"/"` followed by a typetag field whose
first byte is NUL (so the typetag string decodes to `""`),
`from_reader` neither returns a message nor an error value:
`typetags.len()-1` underflows and `typetags.slice_from(1)` is out of
bounds, a task abort — decode is not total over byte inputs. -/
theorem empty_typetags_panics :
    from_reader [47, 0, 0, 0, 0, 0, 0, 0] = .panic := by
  decide

end Osc
